import Mathlib

/-!
Verification of the confusion-matrix evaluator and the threshold classifier
of the b-quark jet classification notebook.

The notebook's computational core is:

* a threshold classifier: `bquark` is built by appending, for each index `i`
  of the score column, `1` if `score[i] > cut` and `0` otherwise;
* an evaluator `evaluate(bquark)` that reads the global truth column
  `data['isb']`, loops over `range(len(data['isb']))`, increments one cell
  of a 2×2 list-of-lists `N` via four sequential `if` statements keyed on
  `(bquark[i], data['isb'][i])`, then computes
  `fracWrong = float(N[0][1]+N[1][0])/float(len(data['isb']))` and
  `accuracy = 1.0 - fracWrong`, returning `(N, accuracy, fracWrong)`.

Numbers in the table are floats read by `np.genfromtxt`; we model them as
rationals (`ℚ`), which is exact for the label values `0`/`1` and the small
decimal thresholds involved.  Python raises `ZeroDivisionError` on the
`float/float(0)` division when the truth column is empty, and `IndexError`
when `bquark` is shorter than the truth column; both are modelled as
explicit error results.
-/

namespace BJet

/-- Confusion counts: the 2×2 list of lists `N = [[0,0],[0,0]]` of the source,
with `n00 = N[0][0]`, `n01 = N[0][1]`, `n10 = N[1][0]`, `n11 = N[1][1]`
(first index is the prediction, second the truth label). -/
structure Counts where
  n00 : ℕ
  n01 : ℕ
  n10 : ℕ
  n11 : ℕ
deriving DecidableEq, Repr

/-- Error conditions the Python runtime raises in `evaluate`:
`indexError` when `bquark[i]` is accessed past the end of the list, and
`zeroDivisionError` for the `float(...)/float(0)` division when the truth
column has length 0. -/
inductive EvalError where
  | indexError
  | zeroDivisionError
deriving DecidableEq, Repr

/-- Result of a call to `evaluate`: either a raised error, or the triple
`(N, accuracy, fracWrong)` the source returns. -/
inductive EvalResult where
  | error : EvalError → EvalResult
  | ok : Counts → ℚ → ℚ → EvalResult
deriving DecidableEq, Repr

/-- One loop iteration of `evaluate`: the four sequential `if` statements
of the source, updating the confusion counts for the pair
`(bquark[i], data['isb'][i]) = (p, a)`. -/
def step (c : Counts) (p a : ℚ) : Counts :=
  let c1 := if p = 0 ∧ a = 0 then { c  with n00 := c.n00 + 1 } else c
  let c2 := if p = 0 ∧ a = 1 then { c1 with n01 := c1.n01 + 1 } else c1
  let c3 := if p = 1 ∧ a = 0 then { c2 with n10 := c2.n10 + 1 } else c2
  if p = 1 ∧ a = 1 then { c3 with n11 := c3.n11 + 1 } else c3

/-- The `for i in np.arange(len(data['isb']))` loop of `evaluate`,
walking the truth column `isb` and indexing `bquark` in step with it.
Returns `none` (Python `IndexError`) when `bquark` runs out before `isb`
does; entries of `bquark` beyond the length of `isb` are never accessed. -/
def evalLoop : List ℚ → List ℚ → Counts → Option Counts
  | _, [], c => some c
  | [], _ :: _, _ => none
  | p :: ps, a :: acts, c => evalLoop ps acts (step c p a)

/-- The notebook's `evaluate` function.  The source reads the truth column
from the global table (`data['isb']`); here that column is the explicit
second argument `isb`.  After the counting loop it computes
`fracWrong = float(N[0][1]+N[1][0])/float(len(isb))` — raising
`ZeroDivisionError` when `len(isb) = 0` — and `accuracy = 1.0 - fracWrong`,
returning the triple `(N, accuracy, fracWrong)`. -/
def evaluate (bq isb : List ℚ) : EvalResult :=
  match evalLoop bq isb ⟨0, 0, 0, 0⟩ with
  | none => .error .indexError
  | some N =>
    if isb.length = 0 then .error .zeroDivisionError
    else
      let fracWrong : ℚ := ((N.n01 : ℚ) + (N.n10 : ℚ)) / (isb.length : ℚ)
      let accuracy : ℚ := 1 - fracWrong
      .ok N accuracy fracWrong

/-- The selection cut `cut_prop_b = 0.15` of the notebook. -/
def cut_prop_b : ℚ := 15 / 100

/-- The threshold classifier of the notebook: for each index `i` of the
score column it appends `1` if `score[i] > cut` and `0` otherwise.  The
source instantiates the pattern at `cut_prop_b = 0.15` on `prob_b` and at
`0.82` on `nnbjet`; the cut is the explicit second argument here. -/
def bquark (scores : List ℚ) (cut : ℚ) : List ℚ :=
  scores.map (fun s => if s > cut then 1 else 0)

/-- The global state of the notebook that `evaluate` can see: the columns
of the loaded table used by the selection cells, and the `SavePlots` flag.
The source `evaluate(bquark)` takes only the prediction list as a
parameter and reads the truth column from this global state. -/
structure Env where
  prob_b : List ℚ
  nnbjet : List ℚ
  isb : List ℚ
  savePlots : Bool

/-- The call `evaluate(bquark)` as it appears in the notebook: the truth
column comes from the global environment.  The function assigns only the
local variables `N`, `fracWrong`, `accuracy`, so the environment is
returned unchanged. -/
def evaluateEnv (bq : List ℚ) (e : Env) : EvalResult × Env :=
  (evaluate bq e.isb, e)

/-- Sum of the four confusion counts. -/
def sumCounts (c : Counts) : ℕ :=
  c.n00 + c.n01 + c.n10 + c.n11

/-- Number of indices `i` at which `(predicted[i], actual[i]) = (x, y)`,
over the indices both sequences cover. -/
def countPairs (ps acts : List ℚ) (x y : ℚ) : ℕ :=
  (ps.zip acts).countP (fun pa => decide (pa.1 = x ∧ pa.2 = y))

/-- The `n00` cell after one iteration. -/
theorem step_n00 (c : Counts) (p a : ℚ) :
    (step c p a).n00 = c.n00 + if p = 0 ∧ a = 0 then 1 else 0 := by
  simp only [step]
  split_ifs <;> simp

/-- The `n01` cell after one iteration. -/
theorem step_n01 (c : Counts) (p a : ℚ) :
    (step c p a).n01 = c.n01 + if p = 0 ∧ a = 1 then 1 else 0 := by
  simp only [step]
  split_ifs <;> simp

/-- The `n10` cell after one iteration. -/
theorem step_n10 (c : Counts) (p a : ℚ) :
    (step c p a).n10 = c.n10 + if p = 1 ∧ a = 0 then 1 else 0 := by
  simp only [step]
  split_ifs <;> simp

/-- The `n11` cell after one iteration. -/
theorem step_n11 (c : Counts) (p a : ℚ) :
    (step c p a).n11 = c.n11 + if p = 1 ∧ a = 1 then 1 else 0 := by
  simp only [step]
  split_ifs <;> simp

/-- Unfolding `countPairs` over a pair of cons cells. -/
theorem countPairs_cons (p a x y : ℚ) (ps acts : List ℚ) :
    countPairs (p :: ps) (a :: acts) x y =
      countPairs ps acts x y + if p = x ∧ a = y then 1 else 0 := by
  simp [countPairs, List.countP_cons]

/-- A `countPairs` against the empty truth column is zero. -/
theorem countPairs_nil_right (ps : List ℚ) (x y : ℚ) :
    countPairs ps [] x y = 0 := by
  simp [countPairs]

/-- The loop of `evaluate` terminates normally whenever the prediction list
covers the truth column, and each confusion cell ends at its starting value
plus the number of indices realizing that (predicted, actual) pair. -/
theorem evalLoop_spec (acts : List ℚ) : ∀ (ps : List ℚ) (c : Counts),
    acts.length ≤ ps.length →
    evalLoop ps acts c = some
      ⟨c.n00 + countPairs ps acts 0 0, c.n01 + countPairs ps acts 0 1,
       c.n10 + countPairs ps acts 1 0, c.n11 + countPairs ps acts 1 1⟩ := by
  induction acts with
  | nil =>
    intro ps c _
    cases ps <;> simp [evalLoop, countPairs_nil_right]
  | cons a acts ih =>
    intro ps c hlen
    cases ps with
    | nil => simp at hlen
    | cons p ps =>
      simp only [evalLoop]
      rw [ih ps (step c p a) (by simpa using hlen)]
      simp only [Option.some.injEq, Counts.mk.injEq]
      refine ⟨?_, ?_, ?_, ?_⟩ <;>
        simp only [step_n00, step_n01, step_n10, step_n11, countPairs_cons] <;>
        omega

/-- When both sequences are binary and of equal length, the four pair counts
partition the index set. -/
theorem countPairs_total (ps : List ℚ) : ∀ (acts : List ℚ),
    (∀ x ∈ ps, x = 0 ∨ x = 1) → (∀ x ∈ acts, x = 0 ∨ x = 1) →
    ps.length = acts.length →
    countPairs ps acts 0 0 + countPairs ps acts 0 1 +
      countPairs ps acts 1 0 + countPairs ps acts 1 1 = acts.length := by
  induction ps with
  | nil =>
    intro acts _ _ hlen
    cases acts with
    | nil => simp [countPairs_nil_right, countPairs]
    | cons a acts => simp at hlen
  | cons p ps ih =>
    intro acts hp ha hlen
    cases acts with
    | nil => simp at hlen
    | cons a acts =>
      have hp0 : p = 0 ∨ p = 1 := hp p (by simp)
      have ha0 : a = 0 ∨ a = 1 := ha a (by simp)
      have ihp : ∀ x ∈ ps, x = 0 ∨ x = 1 := fun x hx => hp x (by simp [hx])
      have iha : ∀ x ∈ acts, x = 0 ∨ x = 1 := fun x hx => ha x (by simp [hx])
      have hrec := ih acts ihp iha (by simpa using hlen)
      simp only [countPairs_cons, List.length_cons]
      rcases hp0 with rfl | rfl <;> rcases ha0 with rfl | rfl <;>
        norm_num <;> omega

/-- Closed form of `evaluate` on a non-empty truth column covered by the
prediction list. -/
theorem evaluate_eq_ok (ps acts : List ℚ) (hlen : acts.length ≤ ps.length)
    (hne : acts ≠ []) :
    evaluate ps acts = .ok
      ⟨countPairs ps acts 0 0, countPairs ps acts 0 1,
       countPairs ps acts 1 0, countPairs ps acts 1 1⟩
      (1 - ((countPairs ps acts 0 1 : ℚ) + (countPairs ps acts 1 0 : ℚ)) /
        (acts.length : ℚ))
      (((countPairs ps acts 0 1 : ℚ) + (countPairs ps acts 1 0 : ℚ)) /
        (acts.length : ℚ)) := by
  rw [evaluate, evalLoop_spec acts ps ⟨0, 0, 0, 0⟩ hlen]
  simp [List.length_eq_zero, hne]

/-- Over the zip of a list with itself, the two components of every pair
agree. -/
theorem mem_zip_same (ps : List ℚ) : ∀ pa ∈ ps.zip ps, pa.1 = pa.2 := by
  induction ps with
  | nil => simp
  | cons p ps ih =>
    intro pa hpa
    rcases (by simpa using hpa : pa = (p, p) ∨ pa ∈ ps.zip ps) with rfl | hmem
    · rfl
    · exact ih pa hmem

/-- A pair count vanishes when no zipped pair satisfies it. -/
theorem countPairs_eq_zero (ps acts : List ℚ) (x y : ℚ)
    (h : ∀ pa ∈ ps.zip acts, ¬(pa.1 = x ∧ pa.2 = y)) :
    countPairs ps acts x y = 0 := by
  rw [countPairs, List.countP_eq_zero]
  intro pa hpa
  simpa using h pa hpa

/-- Elementwise disagreement stated on indices transfers to the zipped
list. -/
theorem zip_ne_of_get_ne (ps : List ℚ) : ∀ (acts : List ℚ),
    (∀ (i : ℕ) (h1 : i < ps.length) (h2 : i < acts.length),
      ps.get ⟨i, h1⟩ ≠ acts.get ⟨i, h2⟩) →
    ∀ pa ∈ ps.zip acts, pa.1 ≠ pa.2 := by
  induction ps with
  | nil => simp
  | cons p ps ih =>
    intro acts h pa hpa
    cases acts with
    | nil => simp at hpa
    | cons a acts =>
      rcases (by simpa using hpa : pa = (p, a) ∨ pa ∈ ps.zip acts) with rfl | hmem
      · exact h 0 (by simp) (by simp)
      · exact ih acts
          (fun i h1 h2 => by
            simpa using h (i + 1) (by simpa using Nat.succ_lt_succ h1)
              (by simpa using Nat.succ_lt_succ h2)) pa hmem

/-- The counting loop never reads prediction entries past the length of the
truth column. -/
theorem evalLoop_take : ∀ (acts ps : List ℚ) (c : Counts),
    evalLoop ps acts c = evalLoop (ps.take acts.length) acts c := by
  intro acts
  induction acts with
  | nil => intro ps c; cases ps <;> simp [evalLoop]
  | cons a acts ih =>
    intro ps c
    cases ps with
    | nil => simp [evalLoop]
    | cons p ps => simpa [evalLoop] using ih ps (step c p a)

/-- C1: on equal-length binary label sequences of positive length the
evaluator returns, for each cell `(x, y)`, the number of indices `i` with
`(predicted[i], actual[i]) = (x, y)`, together with
`fracWrong = (N[0][1] + N[1][0]) / N` and `accuracy = 1 - fracWrong`; in
particular on `predicted = [0,0,1,1]`, `actual = [0,1,0,1]` it returns the
counts `1, 1, 1, 1` with `fracWrong = 1/2` and `accuracy = 1/2`. -/
theorem evaluate_counts_fracWrong (pred act : List ℚ)
    (hp : ∀ x ∈ pred, x = 0 ∨ x = 1) (ha : ∀ x ∈ act, x = 0 ∨ x = 1)
    (hlen : pred.length = act.length) (hN : 0 < act.length) :
    evaluate pred act = .ok
        ⟨countPairs pred act 0 0, countPairs pred act 0 1,
         countPairs pred act 1 0, countPairs pred act 1 1⟩
        (1 - ((countPairs pred act 0 1 : ℚ) + (countPairs pred act 1 0 : ℚ)) /
          (act.length : ℚ))
        (((countPairs pred act 0 1 : ℚ) + (countPairs pred act 1 0 : ℚ)) /
          (act.length : ℚ)) ∧
      evaluate [0, 0, 1, 1] [0, 1, 0, 1] = .ok ⟨1, 1, 1, 1⟩ (1/2) (1/2) := by
  refine ⟨evaluate_eq_ok pred act hlen.ge (List.length_pos.mp hN), ?_⟩
  norm_num [evaluate, evalLoop, step]

/-- Witness for C1 at the worked example of the specification. -/
theorem evaluate_counts_fracWrong_witness :
    evaluate [0, 0, 1, 1] [0, 1, 0, 1] = .ok ⟨1, 1, 1, 1⟩ (1/2) (1/2) :=
  (evaluate_counts_fracWrong [0, 0, 1, 1] [0, 1, 0, 1]
    (by norm_num) (by norm_num) (by norm_num) (by norm_num)).2

/-- C2: whenever the evaluator returns a report on equal-length binary
label sequences, the four confusion counts sum to the common length. -/
theorem sum_counts_eq_length (pred act : List ℚ) (N : Counts) (acc fw : ℚ)
    (hp : ∀ x ∈ pred, x = 0 ∨ x = 1) (ha : ∀ x ∈ act, x = 0 ∨ x = 1)
    (hlen : pred.length = act.length)
    (hok : evaluate pred act = .ok N acc fw) :
    sumCounts N = act.length := by
  cases act with
  | nil =>
    rw [evaluate, evalLoop_spec [] pred ⟨0, 0, 0, 0⟩ (by simp)] at hok
    simp at hok
  | cons a acts =>
    rw [evaluate_eq_ok pred (a :: acts) hlen.ge (by simp)] at hok
    obtain ⟨rfl, -, -⟩ := by simpa using hok
    simpa [sumCounts] using countPairs_total pred (a :: acts) hp ha hlen

/-- Witness for C2 on a length-two input. -/
theorem sum_counts_eq_length_witness : sumCounts ⟨0, 1, 0, 1⟩ = 2 :=
  sum_counts_eq_length [1, 0] [1, 1] ⟨0, 1, 0, 1⟩ (1 - 1/2) (1/2)
    (by norm_num) (by norm_num) (by norm_num)
    (by norm_num [evaluate, evalLoop, step])

/-- C3: whenever the evaluator returns a report on equal-length binary
label sequences of positive length, `accuracy = 1 - fracWrong` and
`accuracy = (N00 + N11) / N` (exactly, in the rational model). -/
theorem accuracy_eq_one_sub_fracWrong (pred act : List ℚ) (N : Counts)
    (acc fw : ℚ)
    (hp : ∀ x ∈ pred, x = 0 ∨ x = 1) (ha : ∀ x ∈ act, x = 0 ∨ x = 1)
    (hlen : pred.length = act.length) (hN : 0 < act.length)
    (hok : evaluate pred act = .ok N acc fw) :
    acc = 1 - fw ∧ acc = ((N.n00 : ℚ) + (N.n11 : ℚ)) / (act.length : ℚ) := by
  rw [evaluate_eq_ok pred act hlen.ge (List.length_pos.mp hN)] at hok
  obtain ⟨rfl, rfl, rfl⟩ := by simpa using hok
  refine ⟨rfl, ?_⟩
  have htot := countPairs_total pred act hp ha hlen
  have hcast : (countPairs pred act 0 0 : ℚ) + countPairs pred act 0 1 +
      countPairs pred act 1 0 + countPairs pred act 1 1 = (act.length : ℚ) := by
    exact_mod_cast congrArg (Nat.cast : ℕ → ℚ) htot
  have hlen0 : (act.length : ℚ) ≠ 0 := by
    exact_mod_cast Nat.pos_iff_ne_zero.mp hN
  field_simp
  linarith

/-- Witness for C3 on a length-two input. -/
theorem accuracy_eq_one_sub_fracWrong_witness :
    (1 - 1/2 : ℚ) = 1 - 1/2 ∧ (1 - 1/2 : ℚ) = ((0 : ℕ) + (1 : ℕ)) / ((2 : ℕ) : ℚ) := by
  have h := accuracy_eq_one_sub_fracWrong [1, 0] [1, 1] ⟨0, 1, 0, 1⟩
    (1 - 1/2) (1/2) (by norm_num) (by norm_num) (by norm_num) (by norm_num)
    (by norm_num [evaluate, evalLoop, step])
  simpa using h

/-- C4: on a zero-length truth column the evaluator does not return a
report at all: the division by `float(0)` raises, giving the
division-by-zero error outcome, for every prediction list. -/
theorem empty_input_zero_division (pred : List ℚ) :
    evaluate pred [] = .error .zeroDivisionError := by
  cases pred <;> simp [evaluate, evalLoop]

/-- C5: the threshold classifier maps each score to `1` exactly when it
strictly exceeds the cut and to `0` otherwise, preserving length; in
particular scores `[0.1, 0.5, 0.9]` against cut `0.5` yield `[0, 0, 1]`. -/
theorem bquark_threshold :
    (∀ (scores : List ℚ) (cut : ℚ), (bquark scores cut).length = scores.length) ∧
    (∀ (scores : List ℚ) (cut : ℚ) (i : ℕ) (h : i < scores.length)
      (h' : i < (bquark scores cut).length),
      (bquark scores cut).get ⟨i, h'⟩ =
        if scores.get ⟨i, h⟩ > cut then 1 else 0) ∧
    bquark [1/10, 1/2, 9/10] (1/2) = [0, 0, 1] := by
  refine ⟨fun scores cut => by simp [bquark], fun scores cut i h h' => ?_, ?_⟩
  · simp [bquark]
  · norm_num [bquark]

/-- Witness for C5 at the last index of the worked example. -/
theorem bquark_threshold_witness :
    (bquark [1/10, 1/2, 9/10] (1/2)).get ⟨2, by norm_num [bquark]⟩ =
      if ([1/10, 1/2, 9/10] : List ℚ).get ⟨2, by norm_num⟩ > (1/2 : ℚ)
        then 1 else 0 :=
  bquark_threshold.2.1 [1/10, 1/2, 9/10] (1/2) 2 (by norm_num)
    (by norm_num [bquark])

/-- C6: when the binary prediction sequence coincides with the binary truth
sequence and the length is positive, the evaluator reports
`accuracy = 1` and `fracWrong = 0`. -/
theorem perfect_agreement (pred act : List ℚ)
    (hp : ∀ x ∈ pred, x = 0 ∨ x = 1) (ha : ∀ x ∈ act, x = 0 ∨ x = 1)
    (heq : pred = act) (hN : 0 < act.length) :
    ∃ N : Counts, evaluate pred act = .ok N 1 0 := by
  subst heq
  have h01 : countPairs pred pred 0 1 = 0 := by
    refine countPairs_eq_zero pred pred 0 1 fun pa hpa => ?_
    rintro ⟨h1, h2⟩
    have := mem_zip_same pred pa hpa
    rw [h1, h2] at this
    norm_num at this
  have h10 : countPairs pred pred 1 0 = 0 := by
    refine countPairs_eq_zero pred pred 1 0 fun pa hpa => ?_
    rintro ⟨h1, h2⟩
    have := mem_zip_same pred pa hpa
    rw [h1, h2] at this
    norm_num at this
  refine ⟨⟨countPairs pred pred 0 0, 0, 0, countPairs pred pred 1 1⟩, ?_⟩
  rw [evaluate_eq_ok pred pred le_rfl (List.length_pos.mp hN), h01, h10]
  norm_num

/-- Witness for C6 on the identical pair `[0, 1]`, `[0, 1]`. -/
theorem perfect_agreement_witness :
    ∃ N : Counts, evaluate [0, 1] [0, 1] = .ok N 1 0 :=
  perfect_agreement [0, 1] [0, 1] (by norm_num) (by norm_num) rfl (by norm_num)

/-- C7: when equal-length binary sequences of positive length disagree at
every index, the evaluator reports `accuracy = 0` (and `fracWrong = 1`). -/
theorem total_disagreement (pred act : List ℚ)
    (hp : ∀ x ∈ pred, x = 0 ∨ x = 1) (ha : ∀ x ∈ act, x = 0 ∨ x = 1)
    (hlen : pred.length = act.length)
    (hne : ∀ (i : ℕ) (h1 : i < pred.length) (h2 : i < act.length),
      pred.get ⟨i, h1⟩ ≠ act.get ⟨i, h2⟩)
    (hN : 0 < act.length) :
    ∃ N : Counts, evaluate pred act = .ok N 0 1 := by
  have hzip := zip_ne_of_get_ne pred act hne
  have h00 : countPairs pred act 0 0 = 0 := by
    refine countPairs_eq_zero pred act 0 0 fun pa hpa => ?_
    rintro ⟨h1, h2⟩
    exact hzip pa hpa (h1.trans h2.symm)
  have h11 : countPairs pred act 1 1 = 0 := by
    refine countPairs_eq_zero pred act 1 1 fun pa hpa => ?_
    rintro ⟨h1, h2⟩
    exact hzip pa hpa (h1.trans h2.symm)
  have htot := countPairs_total pred act hp ha hlen
  rw [h00, h11] at htot
  have hcast : (countPairs pred act 0 1 : ℚ) + (countPairs pred act 1 0 : ℚ) =
      (act.length : ℚ) := by
    exact_mod_cast congrArg (Nat.cast : ℕ → ℚ) (by omega : countPairs pred act 0 1 + countPairs pred act 1 0 = act.length)
  have hlen0 : (act.length : ℚ) ≠ 0 := by
    exact_mod_cast Nat.pos_iff_ne_zero.mp hN
  refine ⟨⟨0, countPairs pred act 0 1, countPairs pred act 1 0, 0⟩, ?_⟩
  rw [evaluate_eq_ok pred act hlen.ge (List.length_pos.mp hN), h00, h11,
    hcast, div_self hlen0]
  norm_num

/-- Witness for C7 on the everywhere-different pair `[0, 1]`, `[1, 0]`. -/
theorem total_disagreement_witness :
    ∃ N : Counts, evaluate [0, 1] [1, 0] = .ok N 0 1 :=
  total_disagreement [0, 1] [1, 0] (by norm_num) (by norm_num) rfl
    (by
      intro i h1 h2
      simp only [List.length_cons, List.length_nil] at h1
      interval_cases i <;> norm_num [List.get])
    (by norm_num)

/-- C8: the evaluator leaves the notebook's global state untouched and its
report depends on nothing in that state beyond the truth column it reads:
two environments agreeing on `isb` yield the same report for every
prediction list. -/
theorem evaluate_no_side_effects :
    (∀ (bq : List ℚ) (e : Env), (evaluateEnv bq e).2 = e) ∧
    (∀ (bq : List ℚ) (e1 e2 : Env), e1.isb = e2.isb →
      (evaluateEnv bq e1).1 = (evaluateEnv bq e2).1) := by
  refine ⟨fun bq e => rfl, fun bq e1 e2 h => ?_⟩
  simp [evaluateEnv, h]

/-- Witness for C8: two environments differing in every other column and in
the plotting flag give the same report. -/
theorem evaluate_no_side_effects_witness :
    (evaluateEnv [0] ⟨[1], [2], [0], true⟩).1 =
      (evaluateEnv [0] ⟨[], [9], [0], false⟩).1 :=
  evaluate_no_side_effects.2 [0] ⟨[1], [2], [0], true⟩ ⟨[], [9], [0], false⟩ rfl

/-- C9: one loop iteration increments exactly the cell addressed by a
binary pair `(predicted[i], actual[i])` — so the total count grows by one —
and increments nothing when either value lies outside `{0, 1}`; hence on
non-binary input the four counts can sum to strictly less than the length,
as on `predicted = [2]`, `actual = [0]`. -/
theorem step_exactly_one_cell :
    (∀ c : Counts, step c 0 0 = ⟨c.n00 + 1, c.n01, c.n10, c.n11⟩) ∧
    (∀ c : Counts, step c 0 1 = ⟨c.n00, c.n01 + 1, c.n10, c.n11⟩) ∧
    (∀ c : Counts, step c 1 0 = ⟨c.n00, c.n01, c.n10 + 1, c.n11⟩) ∧
    (∀ c : Counts, step c 1 1 = ⟨c.n00, c.n01, c.n10, c.n11 + 1⟩) ∧
    (∀ (c : Counts) (p a : ℚ), (p = 0 ∨ p = 1) → (a = 0 ∨ a = 1) →
      sumCounts (step c p a) = sumCounts c + 1) ∧
    (∀ (c : Counts) (p a : ℚ), ¬((p = 0 ∨ p = 1) ∧ (a = 0 ∨ a = 1)) →
      step c p a = c) ∧
    (evaluate [2] [0] = .ok ⟨0, 0, 0, 0⟩ 1 0 ∧
      sumCounts ⟨0, 0, 0, 0⟩ < ([(0 : ℚ)]).length) := by
  refine ⟨fun c => by norm_num [step], fun c => by norm_num [step],
    fun c => by norm_num [step], fun c => by norm_num [step],
    fun c p a hp ha => ?_, fun c p a h => ?_, by norm_num [evaluate, evalLoop, step], ?_⟩
  · rcases hp with rfl | rfl <;> rcases ha with rfl | rfl <;>
      norm_num [step, sumCounts] <;> omega
  · rw [not_and_or] at h
    push_neg at h
    rcases h with ⟨h0, h1⟩ | ⟨h0, h1⟩ <;> simp [step, h0, h1]
  · norm_num [sumCounts]

/-- Witness for C9: a non-binary prediction value leaves the counts
unchanged, and a binary pair grows the total by one. -/
theorem step_exactly_one_cell_witness :
    step ⟨3, 4, 5, 6⟩ 2 0 = ⟨3, 4, 5, 6⟩ ∧
      sumCounts (step ⟨3, 4, 5, 6⟩ 1 0) = sumCounts ⟨3, 4, 5, 6⟩ + 1 :=
  ⟨step_exactly_one_cell.2.2.2.2.2.1 ⟨3, 4, 5, 6⟩ 2 0 (by norm_num),
   step_exactly_one_cell.2.2.2.2.1 ⟨3, 4, 5, 6⟩ 1 0 (Or.inr rfl) (Or.inl rfl)⟩

/-- C10: when the prediction list covers the truth column, prediction
entries past the truth column's length are ignored: the evaluator agrees
with its own run on the truncated prediction list. -/
theorem longer_predicted_ignored (pred act : List ℚ)
    (h : act.length ≤ pred.length) :
    evaluate pred act = evaluate (pred.take act.length) act := by
  rw [evaluate, evaluate, evalLoop_take act pred]

/-- Witness for C10: two extra prediction entries do not change the
report. -/
theorem longer_predicted_ignored_witness :
    evaluate [0, 1, 1] [1] = evaluate ([0, 1, 1].take ([(1 : ℚ)]).length) [1] :=
  longer_predicted_ignored [0, 1, 1] [1] (by norm_num)

end BJet
